import Mathlib

/-!
Verification of the graph-table resolution algorithm of `pysynphot/tables.py`
(`GraphTable.GetComponentsFromGT`) and of the component-table lookup, against
a shallow embedding in Lean.

The Python code stores the graph table as five parallel columns
(`keywords`, `innodes`, `outnodes`, `compnames`, `thcompnames`); we embed one
row of those columns as an `Edge` record and the table as a `List Edge` in
table order.  The traversal loop of `GetComponentsFromGT` is embedded as a
fuel-indexed function `loopGo` (the Python `while` has no a-priori bound), and
the post-loop validation as `postCheck`.  Errors are values of `ResolveError`:
`ambiguous` is the `KeyError('%d matches found for %s')`, `incomplete` the
`ValueError('Incomplete obsmode ...')` and `unused` the
`ValueError('Warning: unused keywords ...')`.  Python sets (`used_modes`,
`inmodes`) are embedded as string lists used up to membership.
-/

namespace PySynphot

/-- One row of the graph table: the parallel entries of the `INNODE`,
`KEYWORD`, `OUTNODE`, `COMPNAME` and `THCOMPNAME` columns. -/
structure Edge where
  innode : Int
  keyword : String
  outnode : Int
  compname : String
  thcompname : String
deriving Repr, DecidableEq

/-- The exceptions `GetComponentsFromGT` can raise, plus the fuel marker of
the embedding (`outOfFuel` means the Python `while` loop has not finished
within the given fuel). -/
inductive ResolveError where
  | ambiguous (matchCount : Nat) (mode : String)
  | incomplete (modes : List String)
  | unused (unusedModes : List String)
  | outOfFuel
deriving Repr, DecidableEq

/-- Which of the three loop exits fired: the `while outnode >= 0` condition
became false, the `break` on a missing innode, or the `break` of the
stall-count guard.  This tag is purely observational: it records which exit
the Python loop took and does not alter any computed value. -/
inductive ExitReason where
  | negativeOutnode
  | noSuchInnode
  | stallGuard
deriving Repr, DecidableEq

/-- The loop state of `GetComponentsFromGT`: the two output lists, the
variables `outnode`, `innode`, the set `used_modes` (as a list used up to
membership) and the stall counter `count`. -/
structure LoopState where
  components : List (Option String)
  thcomponents : List (Option String)
  outnode : Int
  innode : Int
  used : List String
  count : Nat
deriving Repr, DecidableEq

/-- `N.where(self.innodes == innode)` restricted to rows: the sublist of the
table whose innode equals the given node, in table order. -/
def rowsFor (g : List Edge) (innode : Int) : List Edge :=
  g.filter (fun e => e.innode == innode)

/-- The provisional step outcome taken from the first `'default'` row among
the rows of the current node (`dfi = N.where(...== 'default')[0][0]`), or the
dead sentinel `outnode = -2` with `component = thcomponent = None` when no
default row exists. -/
def defaultSel (nodes : List Edge) : Int × Option String × Option String :=
  match nodes.find? (fun e => e.keyword == "default") with
  | some e => (e.outnode, some e.compname, some e.thcompname)
  | none => (-2, none, none)

/-- `used_modes.add(mode)`: set insertion, embedded on lists. -/
def addUsed (used : List String) (m : String) : List String :=
  if m ∈ used then used else used ++ [m]

/-- The `for mode in modes:` matching loop of one traversal step.  For each
mode token in list order: if no row of the node carries that keyword the
token is skipped; if several rows carry it the `KeyError` (ambiguous) is
raised; otherwise the selection is unconditionally overwritten with the
matched row and the token is added to `used_modes`. -/
def matchModes (nodes : List Edge) :
    List String → Int × Option String × Option String → List String →
      Except ResolveError ((Int × Option String × Option String) × List String)
  | [], sel, used => .ok (sel, used)
  | m :: rest, sel, used =>
    match nodes.filter (fun e => e.keyword == m) with
    | [] => matchModes nodes rest sel used
    | e :: es =>
      if es.isEmpty then
        matchModes nodes rest (e.outnode, some e.compname, some e.thcompname)
          (addUsed used m)
      else
        .error (.ambiguous (es.length + 1) m)

/-- One traversal step's selection: the default-row choice followed by the
mode-matching loop. -/
def stepSelect (nodes : List Edge) (modes : List String) (used : List String) :
    Except ResolveError ((Int × Option String × Option String) × List String) :=
  matchModes nodes modes (defaultSel nodes) used

/-- The loop state on entry: empty outputs, `outnode = 0`, the given start
node, no used modes, `count = 0`. -/
def initState (innode : Int) : LoopState :=
  ⟨[], [], 0, innode, [], 0⟩

/-- The `while outnode >= 0` loop of `GetComponentsFromGT`, indexed by fuel.
Each iteration appends the selected component and thermal component, advances
`innode` to the selected outnode, and increments the stall counter when the
outnode equals the previous iteration's outnode, breaking once the counter
exceeds 3. -/
def loopGo (g : List Edge) (modes : List String) :
    Nat → LoopState → Except ResolveError (LoopState × ExitReason)
  | 0, _ => .error .outOfFuel
  | fuel + 1, st =>
    if st.outnode < 0 then
      .ok (st, .negativeOutnode)
    else if (rowsFor g st.innode).isEmpty then
      .ok (st, .noSuchInnode)
    else
      match stepSelect (rowsFor g st.innode) modes st.used with
      | .error e => .error e
      | .ok ((outnode, comp, thcomp), used) =>
        if outnode == st.outnode then
          if st.count + 1 > 3 then
            .ok (⟨st.components ++ [comp], st.thcomponents ++ [thcomp],
                  outnode, outnode, used, st.count + 1⟩, .stallGuard)
          else
            loopGo g modes fuel
              ⟨st.components ++ [comp], st.thcomponents ++ [thcomp],
                outnode, outnode, used, st.count + 1⟩
        else
          loopGo g modes fuel
            ⟨st.components ++ [comp], st.thcomponents ++ [thcomp],
              outnode, outnode, used, st.count⟩

/-- The set difference `inmodes.difference(used_modes)` on the embedded
lists. -/
def setDiffL (a b : List String) : List String :=
  a.filter (fun m => decide (m ∉ b))

/-- The post-loop validation of `GetComponentsFromGT`: first the dead
sentinel check (`outnode < 0` raises the incomplete-obsmode error carrying
the original modes), then the unused-keyword check (`inmodes != used_modes`,
i.e. set inequality, raises the unused-keywords error carrying the
difference), else the two accumulated sequences are returned. -/
def postCheck (modes : List String) (st : LoopState) :
    Except ResolveError (List (Option String) × List (Option String)) :=
  if st.outnode < 0 then
    .error (.incomplete modes)
  else if (∀ m ∈ modes, m ∈ st.used) ∧ (∀ m ∈ st.used, m ∈ modes) then
    .ok (st.components, st.thcomponents)
  else
    .error (.unused (setDiffL modes st.used))

/-- `GraphTable.GetComponentsFromGT(modes, innode)`: run the traversal loop
from the initial state, then the post-loop validation. -/
def GetComponentsFromGT (g : List Edge) (modes : List String) (innode : Int)
    (fuel : Nat) :
    Except ResolveError (List (Option String) × List (Option String)) :=
  match loopGo g modes fuel (initState innode) with
  | .error e => .error e
  | .ok (st, _) => postCheck modes st

/-- Python's `str.lower()` on the ASCII keyword strings of graph tables:
lowercase every character. -/
def lowerStr (s : String) : String := ⟨s.data.map Char.toLower⟩

/-- `GraphTable.__init__`: the keyword column is forced to lower case at
construction; all other columns are stored as read. -/
def mkGraphTable (rows : List Edge) : List Edge :=
  rows.map (fun e => { e with keyword := lowerStr e.keyword })

/-- Two raw rows that agree on every column except possibly the letter case
of the keyword. -/
def caseEquiv (a b : Edge) : Prop :=
  a.innode = b.innode ∧ a.outnode = b.outnode ∧ a.compname = b.compname ∧
    a.thcompname = b.thcompname ∧ lowerStr a.keyword = lowerStr b.keyword

/-- The call never returns: every fuel bound is exhausted. -/
def divergesOn (g : List Edge) (modes : List String) (innode : Int) : Prop :=
  ∀ fuel, GetComponentsFromGT g modes innode fuel = .error .outOfFuel

/-- The step selection raised the ambiguous-match `KeyError`, reporting at
least two matching rows. -/
def isAmbiguousFailure :
    Except ResolveError ((Int × Option String × Option String) × List String) →
      Prop
  | .error (.ambiguous n _) => 2 ≤ n
  | _ => False

/-- `CompTable`: the `COMPNAME` and `FILENAME` columns of a component
table. -/
structure CompTable where
  compnames : List String
  filenames : List String
deriving Repr, DecidableEq

/-- The lookup error of the component directory (`NotFoundError`). -/
inductive CompError where
  | notFound (name : String)
deriving Repr, DecidableEq

/-- The rows of a component table as (name, filename) pairs, pairing the two
parallel columns. -/
def CompTable.entries (t : CompTable) : List (String × String) :=
  t.compnames.zip t.filenames

/-- Modelled from the spec: the lookup operation
`filename_for(component_name)` of the component directory is not part of
`tables.py` (the source builds the name-to-filename dictionary `compdict`
with later duplicates winning, and discards it; the lookup lives outside this
file).  Per the spec it returns the filename stored for the name — last
occurrence wins, matching the dictionary build — and fails with
`NotFoundError` for an unknown name. -/
def filename_for (t : CompTable) (name : String) : Except CompError String :=
  match t.entries.reverse.find? (fun p => p.1 == name) with
  | some p => .ok p.2
  | none => .error (.notFound name)

/-! Concrete tables used by the theorems below. -/

/-- The spec's concrete four-edge graph, with the `outnode = -1` terminal
edges exactly as stated. -/
def specGT : List Edge :=
  [⟨1, "default", 2, "A", "tA"⟩, ⟨1, "acs", 3, "B", "tB"⟩,
   ⟨2, "default", -1, "C", "tC"⟩, ⟨3, "default", -1, "D", "tD"⟩]

/-- The spec's concrete four-edge graph with the two terminal edges instead
pointing at node 4, a node with no rows. -/
def specGT4 : List Edge :=
  [⟨1, "default", 2, "A", "tA"⟩, ⟨1, "acs", 3, "B", "tB"⟩,
   ⟨2, "default", 4, "C", "tC"⟩, ⟨3, "default", 4, "D", "tD"⟩]

/-- A two-node cycle of default edges: node 1 goes to node 2 and node 2 back
to node 1. -/
def twoCycleGT : List Edge :=
  [⟨1, "default", 2, "X", "tX"⟩, ⟨2, "default", 1, "Y", "tY"⟩]

/-- A single self-loop default edge at node 1. -/
def selfLoopGT : List Edge := [⟨1, "default", 1, "X", "tX"⟩]

/-- A single-edge graph whose only node has a default edge to a node with no
rows. -/
def oneHopGT : List Edge := [⟨1, "default", 2, "A", "tA"⟩]

/-- A single-edge graph whose only node has neither a default row nor (for
the mode lists used below) any matching row. -/
def noDefaultGT : List Edge := [⟨1, "foo", 2, "A", "tA"⟩]

/-- The spec's two-row component table. -/
def specComp : CompTable := ⟨["A", "B"], ["a.fits", "b.fits"]⟩

/-! C1: the traversal loop on the two-node default cycle never meets a stop
condition, so `GetComponentsFromGT` does not terminate on it. -/

/-- On the two-node cycle the loop alternates between the control states
(outnode, innode) = (1, 1) and (2, 2); neither ever satisfies a stop
condition, whatever the accumulated output lists are. -/
theorem loopGo_twoCycle_aux : ∀ fuel : Nat,
    (∀ cs ts, loopGo twoCycleGT [] fuel ⟨cs, ts, 1, 1, [], 0⟩ =
      .error .outOfFuel) ∧
    (∀ cs ts, loopGo twoCycleGT [] fuel ⟨cs, ts, 2, 2, [], 0⟩ =
      .error .outOfFuel) := by
  intro fuel
  induction fuel with
  | zero => exact ⟨fun _ _ => rfl, fun _ _ => rfl⟩
  | succ n ih =>
    refine ⟨fun cs ts => ?_, fun cs ts => ?_⟩
    · rw [show loopGo twoCycleGT [] (n + 1) ⟨cs, ts, 1, 1, [], 0⟩ =
          loopGo twoCycleGT [] n
            ⟨cs ++ [some "X"], ts ++ [some "tX"], 2, 2, [], 0⟩ from rfl]
      exact ih.2 _ _
    · rw [show loopGo twoCycleGT [] (n + 1) ⟨cs, ts, 2, 2, [], 0⟩ =
          loopGo twoCycleGT [] n
            ⟨cs ++ [some "Y"], ts ++ [some "tY"], 1, 1, [], 0⟩ from rfl]
      exact ih.1 _ _

/-- C1: the claim that the traversal loop always ends via one of its stop
conditions is false: on the two-edge cycle 1 → 2 → 1 of default edges, with
an empty mode set and start node 1, the outnode alternates 2, 1, 2, 1, … and
never equals the previous iteration's outnode, so the stall counter never
increments, no stop condition fires, and the call never returns (every fuel
bound is exhausted). -/
theorem GetComponentsFromGT_twoCycle_diverges : divergesOn twoCycleGT [] 1 := by
  intro fuel
  cases fuel with
  | zero => rfl
  | succ n =>
    show GetComponentsFromGT twoCycleGT [] 1 (n + 1) = _
    unfold GetComponentsFromGT
    rw [show loopGo twoCycleGT [] (n + 1) (initState 1) =
        loopGo twoCycleGT [] n
          ⟨[some "X"], [some "tX"], 2, 2, [], 0⟩ from rfl]
    rw [(loopGo_twoCycle_aux n).2 [some "X"] [some "tX"]]

/-! C2: the spec's concrete scenario. -/

/-- C2 counterexample: on the four-edge graph exactly as stated (terminal
edges with `outnode = -1`), both `resolve({"acs"}, 1)` and `resolve({}, 1)`
raise the incomplete-obsmode error instead of succeeding, because the final
outnode −1 trips the post-loop dead-sentinel check `outnode < 0`. -/
theorem resolve_specGT_raises_incomplete :
    GetComponentsFromGT specGT ["acs"] 1 20 = .error (.incomplete ["acs"]) ∧
    GetComponentsFromGT specGT [] 1 20 = .error (.incomplete []) :=
  ⟨rfl, rfl⟩

/-- C2 amended: on the same four-edge graph but with the two terminal edges
pointing at a node with no rows (outnode 4) instead of −1, `resolve` with
["acs"] from node 1 returns optical components ["B", "D"] and `resolve` with
no modes returns ["A", "C"], both succeeding. -/
theorem resolve_specGT4_components :
    GetComponentsFromGT specGT4 ["acs"] 1 20 =
      .ok ([some "B", some "D"], [some "tB", some "tD"]) ∧
    GetComponentsFromGT specGT4 [] 1 20 =
      .ok ([some "A", some "C"], [some "tA", some "tC"]) :=
  ⟨rfl, rfl⟩

/-! C7: keyword case handling. -/

/-- C7 counterexample: only the edge keyword is lowercased at construction;
the supplied token is compared verbatim.  On a graph whose single edge is
written with keyword "ACS", the token "ACS" matches nothing (the stored
keyword is "acs") and resolution raises the incomplete-obsmode error, while
the lowercase token "acs" succeeds — so a token does not match regardless of
the case in which it is written. -/
theorem resolve_uppercase_token_fails :
    GetComponentsFromGT (mkGraphTable [⟨1, "ACS", 2, "A", "tA"⟩]) ["ACS"] 1 10 =
      .error (.incomplete ["ACS"]) ∧
    GetComponentsFromGT (mkGraphTable [⟨1, "ACS", 2, "A", "tA"⟩]) ["acs"] 1 10 =
      .ok ([some "A"], [some "tA"]) :=
  ⟨rfl, rfl⟩

/-- C7 amended: edge keywords are normalized to lowercase once at
construction, so construction — and hence every later resolution — is
unaffected by the letter case in which the edge keywords are written: two raw
tables whose rows agree up to keyword case yield equal constructed tables and
identical resolution results.  (The supplied token's own case, by contrast,
is significant: see the counterexample.) -/
theorem mkGraphTable_keyword_case_insensitive (rows rows' : List Edge)
    (h : List.Forall₂ caseEquiv rows rows') :
    mkGraphTable rows = mkGraphTable rows' ∧
    ∀ modes innode fuel,
      GetComponentsFromGT (mkGraphTable rows) modes innode fuel =
        GetComponentsFromGT (mkGraphTable rows') modes innode fuel := by
  have heq : mkGraphTable rows = mkGraphTable rows' := by
    induction h with
    | nil => rfl
    | cons h1 h2 ih =>
      rename_i a b l1 l2
      obtain ⟨e1, e2, e3, e4, e5⟩ := h1
      cases a; cases b
      simp_all [mkGraphTable]
  exact ⟨heq, fun modes innode fuel => by rw [heq]⟩

/-- C7 witness: the table written with keyword "ACS" constructs equal to the
table written with keyword "acs". -/
theorem mkGraphTable_case_witness :
    mkGraphTable [⟨1, "ACS", 2, "A", "tA"⟩] =
      mkGraphTable [⟨1, "acs", 2, "A", "tA"⟩] :=
  (mkGraphTable_keyword_case_insensitive
    [⟨1, "ACS", 2, "A", "tA"⟩] [⟨1, "acs", 2, "A", "tA"⟩]
    (.cons ⟨rfl, rfl, rfl, rfl, by decide⟩ .nil)).1

/-! Unfolding lemmas for the mode-matching loop. -/

/-- A token carried by no row of the node is skipped. -/
theorem matchModes_skip (nodes : List Edge) (m : String) (rest : List String)
    (sel : Int × Option String × Option String) (used : List String)
    (hm : nodes.filter (fun e => e.keyword == m) = []) :
    matchModes nodes (m :: rest) sel used = matchModes nodes rest sel used := by
  simp only [matchModes, hm]

/-- A token carried by exactly one row overwrites the selection with that row
and records the token as used. -/
theorem matchModes_single (nodes : List Edge) (m : String) (rest : List String)
    (sel : Int × Option String × Option String) (used : List String) (e : Edge)
    (hm : nodes.filter (fun e2 => e2.keyword == m) = [e]) :
    matchModes nodes (m :: rest) sel used =
      matchModes nodes rest (e.outnode, some e.compname, some e.thcompname)
        (addUsed used m) := by
  simp only [matchModes, hm, List.isEmpty_nil, if_true]

/-- A token carried by at least two rows raises the ambiguous-match error
with the number of matching rows. -/
theorem matchModes_multi (nodes : List Edge) (m : String) (rest : List String)
    (sel : Int × Option String × Option String) (used : List String)
    (e e2 : Edge) (es : List Edge)
    (hm : nodes.filter (fun e3 => e3.keyword == m) = e :: e2 :: es) :
    matchModes nodes (m :: rest) sel used =
      .error (.ambiguous (es.length + 2) m) := by
  simp only [matchModes, hm, List.isEmpty_cons, List.length_cons]
  rw [if_neg (by decide)]

/-- When no token is carried by any row of the node, the matching loop leaves
the provisional selection and the used set unchanged. -/
theorem matchModes_skip_all (nodes : List Edge) :
    ∀ (ms : List String) (sel : Int × Option String × Option String)
      (used : List String),
      (∀ m ∈ ms, nodes.filter (fun e => e.keyword == m) = []) →
      matchModes nodes ms sel used = .ok (sel, used) := by
  intro ms
  induction ms with
  | nil => intro sel used _; rfl
  | cons m rest ih =>
    intro sel used h
    rw [matchModes_skip nodes m rest sel used (h m (List.mem_cons_self m rest))]
    exact ih sel used fun m' hm' => h m' (List.mem_cons_of_mem m hm')

/-- Membership in the set insertion. -/
theorem mem_addUsed (used : List String) (m x : String)
    (h : x ∈ addUsed used m) : x ∈ used ∨ x = m := by
  unfold addUsed at h
  split at h
  · exact Or.inl h
  · simp only [List.mem_append, List.mem_singleton] at h
    exact h

/-- Every token the matching loop marks used was already used or is one of
the processed tokens. -/
theorem matchModes_used (nodes : List Edge) :
    ∀ (ms : List String) (sel : Int × Option String × Option String)
      (used : List String) sel' used',
      matchModes nodes ms sel used = .ok (sel', used') →
      ∀ x ∈ used', x ∈ used ∨ x ∈ ms := by
  intro ms
  induction ms with
  | nil =>
    intro sel used sel' used' h x hx
    simp only [matchModes, Except.ok.injEq, Prod.mk.injEq] at h
    exact Or.inl (h.2 ▸ hx)
  | cons m rest ih =>
    intro sel used sel' used' h x hx
    cases hf : nodes.filter (fun e => e.keyword == m) with
    | nil =>
      rw [matchModes_skip _ _ _ _ _ hf] at h
      rcases ih _ _ _ _ h x hx with h1 | h1
      · exact Or.inl h1
      · exact Or.inr (List.mem_cons_of_mem _ h1)
    | cons e es =>
      cases es with
      | nil =>
        rw [matchModes_single _ _ _ _ _ _ hf] at h
        rcases ih _ _ _ _ h x hx with h1 | h1
        · rcases mem_addUsed used m x h1 with h2 | h2
          · exact Or.inl h2
          · exact Or.inr (h2 ▸ List.mem_cons_self m rest)
        · exact Or.inr (List.mem_cons_of_mem _ h1)
      | cons e2 es' =>
        rw [matchModes_multi _ _ _ _ _ _ _ _ hf] at h
        exact absurd h (by simp)

/-! C4: last-match-wins overwrite. -/

/-- When the token `m` is carried by exactly the row `e`, every later token
matches nothing, and no earlier token is ambiguous, the matching loop's final
selection is row `e`'s data, whatever the provisional (default) selection
was. -/
theorem matchModes_last_wins (nodes : List Edge) (m : String)
    (ms2 : List String) (e : Edge)
    (hm : nodes.filter (fun e2 => e2.keyword == m) = [e])
    (h2 : ∀ m2 ∈ ms2, nodes.filter (fun e2 => e2.keyword == m2) = []) :
    ∀ (ms1 : List String) (sel : Int × Option String × Option String)
      (used : List String),
      (∀ m1 ∈ ms1, (nodes.filter (fun e2 => e2.keyword == m1)).length ≤ 1) →
      Except.map Prod.fst (matchModes nodes (ms1 ++ m :: ms2) sel used) =
        .ok (e.outnode, some e.compname, some e.thcompname) := by
  intro ms1
  induction ms1 with
  | nil =>
    intro sel used _
    rw [List.nil_append, matchModes_single _ _ _ _ _ _ hm,
        matchModes_skip_all _ _ _ _ h2]
    rfl
  | cons m1 rest ih =>
    intro sel used h1
    rw [List.cons_append]
    cases hf : nodes.filter (fun e2 => e2.keyword == m1) with
    | nil =>
      rw [matchModes_skip _ _ _ _ _ hf]
      exact ih _ _ fun m' h' => h1 m' (List.mem_cons_of_mem _ h')
    | cons e1 es =>
      cases es with
      | nil =>
        rw [matchModes_single _ _ _ _ _ _ hf]
        exact ih _ _ fun m' h' => h1 m' (List.mem_cons_of_mem _ h')
      | cons e2 es' =>
        exfalso
        have hlen := h1 m1 (List.mem_cons_self m1 rest)
        rw [hf] at hlen
        simp at hlen

/-- C4: in a single traversal step, when several distinct supplied tokens
each match a distinct row of the current node, the step's outnode, component,
and thermal component come from the row matched by the last such token in the
mode iteration order — the matching loop overwrites the selection
unconditionally — and that row also overrides whatever default row the
provisional selection came from. -/
theorem stepSelect_last_match_wins (nodes : List Edge) (ms1 : List String)
    (m : String) (ms2 : List String) (used : List String) (e : Edge)
    (h1 : ∀ m1 ∈ ms1, (nodes.filter (fun e2 => e2.keyword == m1)).length ≤ 1)
    (hm : nodes.filter (fun e2 => e2.keyword == m) = [e])
    (h2 : ∀ m2 ∈ ms2, nodes.filter (fun e2 => e2.keyword == m2) = []) :
    Except.map Prod.fst (stepSelect nodes (ms1 ++ m :: ms2) used) =
      .ok (e.outnode, some e.compname, some e.thcompname) :=
  matchModes_last_wins nodes m ms2 e hm h2 ms1 (defaultSel nodes) used h1

/-- C4 witness: at a node with a default row and rows for keywords "a" and
"b", the mode list ["a", "b"] selects the row of "b", the last matching
token, overriding both the default row and the row of "a". -/
theorem stepSelect_last_match_witness :
    ([(⟨1, "default", 9, "Z", "tZ"⟩ : Edge), ⟨1, "a", 2, "A", "tA"⟩,
        ⟨1, "b", 3, "B", "tB"⟩].filter
      (fun e2 => e2.keyword == "b") = [⟨1, "b", 3, "B", "tB"⟩]) ∧
    Except.map Prod.fst
      (stepSelect [⟨1, "default", 9, "Z", "tZ"⟩, ⟨1, "a", 2, "A", "tA"⟩,
          ⟨1, "b", 3, "B", "tB"⟩] ["a", "b"] []) =
      .ok (3, some "B", some "tB") :=
  ⟨by decide,
    stepSelect_last_match_wins
      [⟨1, "default", 9, "Z", "tZ"⟩, ⟨1, "a", 2, "A", "tA"⟩,
        ⟨1, "b", 3, "B", "tB"⟩]
      ["a"] "b" [] [] ⟨1, "b", 3, "B", "tB"⟩
      (by decide) (by decide) (by decide)⟩

/-! C5: ambiguous keyword match. -/

/-- When some token of the list is carried by at least two rows of the node,
the matching loop raises the ambiguous-match error. -/
theorem matchModes_ambiguous_aux (nodes : List Edge) :
    ∀ (ms : List String) (sel : Int × Option String × Option String)
      (used : List String),
      (∃ m, m ∈ ms ∧ 2 ≤ (nodes.filter (fun e => e.keyword == m)).length) →
      isAmbiguousFailure (matchModes nodes ms sel used) := by
  intro ms
  induction ms with
  | nil =>
    intro sel used h
    obtain ⟨m, hm, _⟩ := h
    exact absurd hm (List.not_mem_nil m)
  | cons m0 rest ih =>
    intro sel used h
    cases hf : nodes.filter (fun e => e.keyword == m0) with
    | nil =>
      rw [matchModes_skip _ _ _ _ _ hf]
      obtain ⟨m, hm, hlen⟩ := h
      rcases List.mem_cons.mp hm with rfl | hm'
      · rw [hf] at hlen; simp at hlen
      · exact ih _ _ ⟨m, hm', hlen⟩
    | cons e es =>
      cases es with
      | nil =>
        rw [matchModes_single _ _ _ _ _ _ hf]
        obtain ⟨m, hm, hlen⟩ := h
        rcases List.mem_cons.mp hm with rfl | hm'
        · rw [hf] at hlen; simp at hlen
        · exact ih _ _ ⟨m, hm', hlen⟩
      | cons e2 es' =>
        rw [matchModes_multi _ _ _ _ _ _ _ _ hf]
        simp only [isAmbiguousFailure]
        omega

/-- C5: in a traversal step, if a supplied mode token matches more than one
row of the current node, the step fails with the ambiguous-match error
(reporting at least two matches) instead of silently picking one of the
matching rows. -/
theorem stepSelect_ambiguous_fails (nodes : List Edge)
    (modes used : List String)
    (h : ∃ m, m ∈ modes ∧
      2 ≤ (nodes.filter (fun e => e.keyword == m)).length) :
    isAmbiguousFailure (stepSelect nodes modes used) :=
  matchModes_ambiguous_aux nodes modes (defaultSel nodes) used h

/-- C5 witness: a node with two rows sharing keyword "k" makes the step with
mode list ["k"] fail ambiguously. -/
theorem stepSelect_ambiguous_witness :
    (∃ m, m ∈ ["k"] ∧
      2 ≤ ([(⟨1, "k", 2, "A", "tA"⟩ : Edge), ⟨1, "k", 3, "B", "tB"⟩].filter
        (fun e => e.keyword == m)).length) ∧
    isAmbiguousFailure
      (stepSelect [⟨1, "k", 2, "A", "tA"⟩, ⟨1, "k", 3, "B", "tB"⟩] ["k"] []) :=
  ⟨by decide,
    stepSelect_ambiguous_fails
      [⟨1, "k", 2, "A", "tA"⟩, ⟨1, "k", 3, "B", "tB"⟩] ["k"] [] (by decide)⟩

/-! C9: duplicate default rows. -/

/-- C9: when a node's rows contain two or more rows with keyword "default"
and no supplied token matches any row of the node, the step silently uses
the first default row in table order (the row `find?` returns) and raises no
error: there is no ambiguity check on the default keyword. -/
theorem stepSelect_duplicate_defaults (nodes : List Edge)
    (modes used : List String) (d : Edge)
    (hd : nodes.find? (fun e => e.keyword == "default") = some d)
    (_h2 : 2 ≤ (nodes.filter (fun e => e.keyword == "default")).length)
    (hnm : ∀ m ∈ modes, nodes.filter (fun e => e.keyword == m) = []) :
    stepSelect nodes modes used =
      .ok ((d.outnode, some d.compname, some d.thcompname), used) := by
  unfold stepSelect defaultSel
  rw [hd]
  exact matchModes_skip_all nodes modes _ used hnm

/-- C9 witness: a node with two default rows and a non-matching mode list
selects the first default row, without error. -/
theorem stepSelect_duplicate_defaults_witness :
    (2 ≤ ([(⟨1, "default", 2, "A", "tA"⟩ : Edge),
        ⟨1, "default", 3, "B", "tB"⟩].filter
      (fun e => e.keyword == "default")).length) ∧
    stepSelect [⟨1, "default", 2, "A", "tA"⟩, ⟨1, "default", 3, "B", "tB"⟩]
        ["x"] [] =
      .ok ((2, some "A", some "tA"), []) :=
  ⟨by decide,
    stepSelect_duplicate_defaults
      [⟨1, "default", 2, "A", "tA"⟩, ⟨1, "default", 3, "B", "tB"⟩]
      ["x"] [] ⟨1, "default", 2, "A", "tA"⟩
      (by decide) (by decide) (by decide)⟩

/-! C6: no default and no match: the dead sentinel and the
incomplete-obsmode error. -/

/-- C6: if the traversal reaches a node that has rows but none with the
keyword "default" and none matching any supplied mode token, the step sets
the negative sentinel outnode −2 with empty components, and a resolution
started at such a node stops and raises the incomplete-obsmode error
carrying the original mode set. -/
theorem resolve_no_viable_edge_incomplete (g : List Edge)
    (modes : List String) (innode : Int) (fuel : Nat) (used : List String)
    (hne : (rowsFor g innode).isEmpty = false)
    (hnd : (rowsFor g innode).find? (fun e => e.keyword == "default") = none)
    (hnm : ∀ m ∈ modes,
      (rowsFor g innode).filter (fun e => e.keyword == m) = []) :
    stepSelect (rowsFor g innode) modes used = .ok ((-2, none, none), used) ∧
    GetComponentsFromGT g modes innode (fuel + 2) =
      .error (.incomplete modes) := by
  have hstep : ∀ u : List String,
      stepSelect (rowsFor g innode) modes u = .ok ((-2, none, none), u) := by
    intro u
    unfold stepSelect defaultSel
    rw [hnd]
    exact matchModes_skip_all _ _ _ _ hnm
  refine ⟨hstep used, ?_⟩
  have hloop : loopGo g modes (fuel + 2) (initState innode) =
      .ok (⟨[none], [none], -2, -2, [], 0⟩, .negativeOutnode) := by
    show loopGo g modes (fuel + 1 + 1) ⟨[], [], 0, innode, [], 0⟩ = _
    rw [loopGo]
    dsimp only
    rw [if_neg (by decide : ¬ ((0 : Int) < 0))]
    rw [hne]
    rw [if_neg (by decide : ¬ (false = true))]
    rw [hstep []]
    dsimp only
    rw [if_neg (by decide : ¬ (((-2 : Int) == 0) = true))]
    rw [loopGo]
    dsimp only
    rw [if_pos (by decide : ((-2 : Int) < 0))]
    simp
  unfold GetComponentsFromGT
  rw [hloop]
  rfl

/-- C6 witness: a single-row node with keyword "foo" and the mode list
["bar"] has no default and no match, so the step yields the sentinel and the
resolution raises the incomplete-obsmode error carrying ["bar"]. -/
theorem resolve_no_viable_edge_witness :
    ((rowsFor noDefaultGT 1).isEmpty = false) ∧
    ((rowsFor noDefaultGT 1).find? (fun e => e.keyword == "default") = none) ∧
    stepSelect (rowsFor noDefaultGT 1) ["bar"] [] =
      .ok ((-2, none, none), []) ∧
    GetComponentsFromGT noDefaultGT ["bar"] 1 2 =
      .error (.incomplete ["bar"]) := by
  have h := resolve_no_viable_edge_incomplete noDefaultGT ["bar"] 1 0 []
    (by decide) (by decide) (by decide)
  exact ⟨by decide, by decide, h.1, h.2⟩

/-! Loop invariants: provenance of the used set and behavior of the stall
counter. -/

/-- Every token the loop marks used was already used on entry or belongs to
the supplied mode list. -/
theorem loopGo_used_sub (g : List Edge) (modes : List String) :
    ∀ (fuel : Nat) (st st' : LoopState) (r : ExitReason),
      loopGo g modes fuel st = .ok (st', r) →
      ∀ x ∈ st'.used, x ∈ st.used ∨ x ∈ modes := by
  intro fuel
  induction fuel with
  | zero => intro st st' r h; exact absurd h (by simp [loopGo])
  | succ n ih =>
    intro st st' r h x hx
    rw [loopGo] at h
    split at h
    · simp only [Except.ok.injEq, Prod.mk.injEq] at h
      rw [← h.1] at hx
      exact Or.inl hx
    · split at h
      · simp only [Except.ok.injEq, Prod.mk.injEq] at h
        rw [← h.1] at hx
        exact Or.inl hx
      · split at h
        · exact absurd h (by simp)
        · rename_i outnode comp thcomp usedv heq
          have hused : ∀ y ∈ usedv, y ∈ st.used ∨ y ∈ modes := fun y hy =>
            matchModes_used _ modes (defaultSel (rowsFor g st.innode))
              st.used _ usedv heq y hy
          split at h
          · split at h
            · simp only [Except.ok.injEq, Prod.mk.injEq] at h
              rw [← h.1] at hx
              exact hused x hx
            · rcases ih _ _ _ h x hx with h1 | h1
              · exact hused x h1
              · exact Or.inr h1
          · rcases ih _ _ _ h x hx with h1 | h1
            · exact hused x h1
            · exact Or.inr h1

/-- The stall counter never decreases across the loop; a stall-guard exit
leaves a non-negative outnode, and drives the counter to exactly 4 when it
had not yet passed the guard threshold. -/
theorem loopGo_count (g : List Edge) (modes : List String) :
    ∀ (fuel : Nat) (st st' : LoopState) (r : ExitReason),
      loopGo g modes fuel st = .ok (st', r) →
      st.count ≤ st'.count ∧
      (r = .stallGuard →
        0 ≤ st'.outnode ∧ (st.count ≤ 3 → st'.count = 4)) := by
  intro fuel
  induction fuel with
  | zero => intro st st' r h; exact absurd h (by simp [loopGo])
  | succ n ih =>
    intro st st' r h
    rw [loopGo] at h
    split at h
    · simp only [Except.ok.injEq, Prod.mk.injEq] at h
      refine ⟨le_of_eq (by rw [h.1]), fun hr => absurd (h.2.trans hr)
        (by simp)⟩
    · rename_i hneg
      split at h
      · simp only [Except.ok.injEq, Prod.mk.injEq] at h
        refine ⟨le_of_eq (by rw [h.1]), fun hr => absurd (h.2.trans hr)
          (by simp)⟩
      · split at h
        · exact absurd h (by simp)
        · rename_i outnode comp thcomp usedv heq
          split at h
          · rename_i hbeq
            split at h
            · rename_i hguard
              simp only [Except.ok.injEq, Prod.mk.injEq] at h
              obtain ⟨h1, h2⟩ := h
              subst h1
              refine ⟨Nat.le_succ _, fun _ => ⟨?_, fun hle => ?_⟩⟩
              · show (0 : Int) ≤ outnode
                rw [eq_of_beq hbeq]
                exact Int.not_lt.mp hneg
              · show st.count + 1 = 4
                omega
            · rename_i hguard
              have hrec := ih _ _ _ h
              have hmono : st.count + 1 ≤ st'.count := hrec.1
              refine ⟨by omega, fun hr => ?_⟩
              obtain ⟨ho, hc⟩ := hrec.2 hr
              have hc' : st.count + 1 ≤ 3 → st'.count = 4 := hc
              exact ⟨ho, fun hle => hc' (by omega)⟩
          · have hrec := ih _ _ _ h
            exact ⟨hrec.1, hrec.2⟩

/-! C10: the stall counter and the stall-guard exit. -/

/-- C10: the stall counter is cumulative over the entire traversal and never
reset — it is monotone across the whole loop — and a traversal stopped by
the stall guard exits at the fourth stall step (a final counter of exactly 4
from any entry counter still at most 3, in particular from the initial 0)
with a non-negative final outnode, so its post-loop validation never raises
the incomplete-obsmode error. -/
theorem resolve_stall_guard_cumulative (g : List Edge) (modes : List String)
    (fuel : Nat) (st st' : LoopState) (r : ExitReason)
    (h : loopGo g modes fuel st = .ok (st', r)) :
    st.count ≤ st'.count ∧
    (r = .stallGuard →
      0 ≤ st'.outnode ∧ (st.count ≤ 3 → st'.count = 4) ∧
      postCheck modes st' ≠ .error (.incomplete modes)) := by
  have hc := loopGo_count g modes fuel st st' r h
  refine ⟨hc.1, fun hr => ?_⟩
  obtain ⟨ho, hcnt⟩ := hc.2 hr
  refine ⟨ho, hcnt, ?_⟩
  unfold postCheck
  rw [if_neg (Int.not_lt.mpr ho)]
  split
  · simp
  · simp

/-- C10 witness: on the self-loop graph the loop exits through the stall
guard after the fourth stall (five appended components, counter 4), and the
resolution result is not the incomplete-obsmode error. -/
theorem resolve_stall_guard_witness :
    loopGo selfLoopGT [] 10 (initState 1) =
      .ok (⟨[some "X", some "X", some "X", some "X", some "X"],
            [some "tX", some "tX", some "tX", some "tX", some "tX"],
            1, 1, [], 4⟩, .stallGuard) ∧
    (⟨[some "X", some "X", some "X", some "X", some "X"],
      [some "tX", some "tX", some "tX", some "tX", some "tX"],
      1, 1, [], 4⟩ : LoopState).count = 4 ∧
    postCheck []
      ⟨[some "X", some "X", some "X", some "X", some "X"],
        [some "tX", some "tX", some "tX", some "tX", some "tX"],
        1, 1, [], 4⟩ ≠ .error (.incomplete []) := by
  have h := resolve_stall_guard_cumulative selfLoopGT [] 10 (initState 1)
    ⟨[some "X", some "X", some "X", some "X", some "X"],
      [some "tX", some "tX", some "tX", some "tX", some "tX"],
      1, 1, [], 4⟩ .stallGuard rfl
  exact ⟨rfl, (h.2 rfl).2.1 (by decide), (h.2 rfl).2.2⟩

/-! C3: the unused-keyword check. -/

/-- C3: when the traversal loop finishes without the negative dead sentinel,
the resolution returns the two accumulated sequences if every supplied mode
was used, and otherwise raises the unused-keywords error carrying exactly
the set difference of the supplied modes minus the used modes; the check
runs after the dead-sentinel check, which wins when the final outnode is
negative. -/
theorem resolve_unused_keyword_check (g : List Edge) (modes : List String)
    (innode : Int) (fuel : Nat) (st : LoopState) (r : ExitReason)
    (h : loopGo g modes fuel (initState innode) = .ok (st, r)) :
    (st.outnode < 0 →
      GetComponentsFromGT g modes innode fuel = .error (.incomplete modes)) ∧
    (0 ≤ st.outnode →
      (setDiffL modes st.used = [] →
        GetComponentsFromGT g modes innode fuel =
          .ok (st.components, st.thcomponents)) ∧
      (setDiffL modes st.used ≠ [] →
        GetComponentsFromGT g modes innode fuel =
          .error (.unused (setDiffL modes st.used)))) ∧
    (∀ m, m ∈ setDiffL modes st.used ↔ (m ∈ modes ∧ m ∉ st.used)) := by
  have hres : GetComponentsFromGT g modes innode fuel = postCheck modes st := by
    unfold GetComponentsFromGT
    rw [h]
  have hsub : ∀ x ∈ st.used, x ∈ modes := by
    intro x hx
    rcases loopGo_used_sub g modes fuel _ _ _ h x hx with h1 | h1
    · simp [initState] at h1
    · exact h1
  refine ⟨fun hneg => ?_, fun hpos => ⟨fun hdiff => ?_, fun hdiff => ?_⟩,
    fun m => ?_⟩
  · rw [hres]
    unfold postCheck
    rw [if_pos hneg]
  · rw [hres]
    unfold postCheck
    rw [if_neg (Int.not_lt.mpr hpos)]
    simp only [setDiffL, List.filter_eq_nil_iff, decide_eq_true_eq,
      Decidable.not_not] at hdiff
    rw [if_pos ⟨hdiff, hsub⟩]
  · rw [hres]
    unfold postCheck
    rw [if_neg (Int.not_lt.mpr hpos)]
    rw [if_neg ?bothways]
    case bothways =>
      rintro ⟨h1, -⟩
      apply hdiff
      simp only [setDiffL, List.filter_eq_nil_iff, decide_eq_true_eq,
        Decidable.not_not]
      exact h1
  · simp [setDiffL, List.mem_filter]

/-- C3 witness: on the one-edge graph, resolving with the never-matched mode
list ["x"] raises the unused-keywords error carrying exactly ["x"], while
resolving with no modes returns the accumulated sequences. -/
theorem resolve_unused_keyword_witness :
    GetComponentsFromGT oneHopGT ["x"] 1 10 = .error (.unused ["x"]) ∧
    GetComponentsFromGT oneHopGT [] 1 10 =
      .ok ([some "A"], [some "tA"]) := by
  have h1 := resolve_unused_keyword_check oneHopGT ["x"] 1 10
    ⟨[some "A"], [some "tA"], 2, 2, [], 0⟩ .noSuchInnode rfl
  have h2 := resolve_unused_keyword_check oneHopGT [] 1 10
    ⟨[some "A"], [some "tA"], 2, 2, [], 0⟩ .noSuchInnode rfl
  exact ⟨(h1.2.1 (by decide)).2 (by decide), (h2.2.1 (by decide)).1 rfl⟩

/-! C8: the component-directory lookup. -/

/-- C8: for every loaded component table, the lookup returns the filename
stored for the given component name (an entry of the table pairing that
name with the returned filename) and fails with the not-found error when the
name is not in the table. -/
theorem filename_for_lookup (t : CompTable) (name : String) :
    (name ∉ t.entries.map Prod.fst →
      filename_for t name = .error (.notFound name)) ∧
    (∀ fn, (name, fn) ∈ t.entries →
      ∃ fnr, filename_for t name = .ok fnr ∧ (name, fnr) ∈ t.entries) := by
  constructor
  · intro hnot
    unfold filename_for
    rw [List.find?_eq_none.mpr ?noneCase]
    case noneCase =>
      intro p hp hb
      exact hnot (List.mem_map.mpr ⟨p, List.mem_reverse.mp hp, eq_of_beq hb⟩)
  · intro fn hmem
    cases hf : t.entries.reverse.find? (fun p => p.1 == name) with
    | none =>
      rw [List.find?_eq_none] at hf
      exact absurd (by simp : (((name, fn) : String × String).1 == name) = true)
        (hf _ (List.mem_reverse.mpr hmem))
    | some a =>
      have hb := List.find?_some hf
      have ha1 : a.1 = name := eq_of_beq hb
      have ha2 : a ∈ t.entries :=
        List.mem_reverse.mp (List.mem_of_find?_eq_some hf)
      refine ⟨a.2, ?_, ?_⟩
      · unfold filename_for
        rw [hf]
      · rw [← ha1]
        exact ha2

/-- C8 witness: on the spec's two-row table, looking up "A" returns
"a.fits" via a stored entry, and looking up "Z" fails with the not-found
error. -/
theorem filename_for_witness :
    (∃ fnr, filename_for specComp "A" = .ok fnr ∧
      ("A", fnr) ∈ specComp.entries) ∧
    filename_for specComp "Z" = .error (.notFound "Z") :=
  ⟨(filename_for_lookup specComp "A").2 "a.fits" (by decide),
    (filename_for_lookup specComp "Z").1 (by decide)⟩

end PySynphot
